import Mathlib

/-!
Shallow embedding of the resilient LLM-evaluation orchestration subsystem
(`src/core/evaluator.py`, `src/core/rate_limiter.py`, `src/core/circuit_breaker.py`,
`src/providers/base.py`, `src/providers/openrouter.py`,
`src/providers/provider_pool.py`).

Python floats used as timestamps are modelled as integers (only comparison and
subtraction are used); exceptions are modelled as explicit error values; the
nondeterminism of `random.choice` is modelled by an index argument; the mutable
Redis sorted set is modelled as a list of member timestamps threaded through
`acquire`.
-/

namespace HoneyHive

/-- Python exception values that flow through the orchestrator
(`src/core/exceptions.py`; plain `Exception(...)` raises become `other`). -/
inductive PyError where
  | rateLimitExceeded (msg : String)
  | serviceUnavailable (msg : String)
  | evaluationError (msg : String)
  | other (msg : String)
deriving DecidableEq, Repr

/-- `str(e)` on a modelled exception: the message it carries. -/
def PyError.msg : PyError → String
  | .rateLimitExceeded m => m
  | .serviceUnavailable m => m
  | .evaluationError m => m
  | .other m => m

/-! ## Provider health bookkeeping (`src/providers/base.py`) -/

/-- The state of one `LLMProvider` (`src/providers/base.py`, `__init__`). -/
structure Provider where
  model_name : String
  is_healthy : Bool := true
  failure_count : ℕ := 0
  max_failures : ℕ := 3
deriving DecidableEq, Repr, Inhabited

/-- `LLMProvider.mark_failure`: increment `failure_count`; once it reaches
`max_failures`, set `is_healthy := false`. -/
def Provider.mark_failure (p : Provider) : Provider :=
  { p with failure_count := p.failure_count + 1,
           is_healthy :=
             if p.failure_count + 1 ≥ p.max_failures then false else p.is_healthy }

/-- `LLMProvider.mark_success`: reset `failure_count` to 0 and set healthy. -/
def Provider.mark_success (p : Provider) : Provider :=
  { p with failure_count := 0, is_healthy := true }

/-- Outcome of the HTTP exchange inside `OpenRouterProvider.generate`. -/
inductive GenOutcome where
  | ok (content : String)     -- status 200
  | rateLimited               -- status 429
  | httpError (status : ℕ)    -- any other status
  | timeout                   -- asyncio.TimeoutError
deriving DecidableEq, Repr

/-- `OpenRouterProvider.generate` (`src/providers/openrouter.py`): on 200 it
calls `mark_success` and returns the content; on 429 or another status it
raises a plain `Exception`, which its own `except Exception` handler turns
into one `mark_failure` before re-raising; on timeout it calls `mark_failure`
and re-raises. -/
def Provider.generate (p : Provider) (o : GenOutcome) : Except String String × Provider :=
  match o with
  | .ok c => (.ok c, p.mark_success)
  | .rateLimited => (.error "Rate limited by OpenRouter", p.mark_failure)
  | .httpError s => (.error ("OpenRouter API error: " ++ toString s), p.mark_failure)
  | .timeout => (.error "Request timeout", p.mark_failure)

/-- `OpenRouterProvider.health_check`: sets `is_healthy` directly from whether
the probe request succeeded (status 200), leaving `failure_count` untouched;
any exception also yields `is_healthy := false`. -/
def Provider.health_check (p : Provider) (probeOk : Bool) : Provider :=
  { p with is_healthy := probeOk }

/-! ## Circuit breaker (`src/core/circuit_breaker.py`) -/

inductive CircuitBreakerState where
  | closed
  | opened
  | halfOpen
deriving DecidableEq, Repr

/-- The state of `CircuitBreaker` (`__init__`): threshold and recovery timeout
from settings, `failure_count = 0`, `last_failure_time = None`,
`state = CLOSED`. -/
structure CircuitBreaker where
  failure_threshold : ℕ
  recovery_timeout : ℤ
  failure_count : ℕ := 0
  last_failure_time : Option ℤ := none
  state : CircuitBreakerState := .closed
deriving DecidableEq, Repr

/-- The admission phase of `CircuitBreaker.call` (the first `async with
self.lock` block): in OPEN state, reject with `ServiceUnavailable` while
`now - last_failure_time < recovery_timeout`, otherwise move to HALF_OPEN;
in any other state pass through unchanged.  (`last_failure_time` is always set when
the state is OPEN; `getD 0` stands for the unreachable `None` access.) -/
def CircuitBreaker.admission (cb : CircuitBreaker) (now : ℤ) :
    Except PyError CircuitBreaker :=
  match cb.state with
  | .opened =>
      if now - (cb.last_failure_time.getD 0) < cb.recovery_timeout then
        .error (.serviceUnavailable "Circuit breaker is open")
      else
        .ok { cb with state := .halfOpen }
  | _ => .ok cb

/-- The success branch of `CircuitBreaker.call`: only a HALF_OPEN breaker
changes (to CLOSED, with `failure_count` reset). -/
def CircuitBreaker.onSuccess (cb : CircuitBreaker) : CircuitBreaker :=
  match cb.state with
  | .halfOpen => { cb with state := .closed, failure_count := 0 }
  | _ => cb

/-- The failure branch of `CircuitBreaker.call`: increment `failure_count`,
record `last_failure_time := now`, and open the breaker once the count
reaches the threshold. -/
def CircuitBreaker.onFailure (cb : CircuitBreaker) (now : ℤ) : CircuitBreaker :=
  { cb with failure_count := cb.failure_count + 1,
            last_failure_time := some now,
            state :=
              if cb.failure_count + 1 ≥ cb.failure_threshold then .opened
              else cb.state }

/-- `CircuitBreaker.call`, with the protected call's outcome supplied as
`r` (it is consulted only when the call is admitted).  Returns the result
seen by the caller, the new breaker state, and whether the wrapped function
was invoked. -/
def CircuitBreaker.call (cb : CircuitBreaker) (now : ℤ) (r : Except PyError α) :
    Except PyError α × CircuitBreaker × Bool :=
  match cb.admission now with
  | .error e => (.error e, cb, false)
  | .ok cb' =>
      match r with
      | .ok a => (.ok a, cb'.onSuccess, true)
      | .error e => (.error e, cb'.onFailure now, true)

/-! ## Provider pool (`src/providers/provider_pool.py`) -/

/-- The healthy sublist (`[p for p in self.providers if p.is_healthy]`). -/
def healthyProviders (ps : List Provider) : List Provider :=
  ps.filter (·.is_healthy)

/-- The failure count of the head of the pool's ascending in-place sort of the
healthy providers, i.e. the minimum `failure_count` among them
(`healthy_providers.sort(key=lambda p: p.failure_count)` then
`healthy_providers[0].failure_count`). -/
def minFailureCount (ps : List Provider) : Option ℕ :=
  ((healthyProviders ps).map (·.failure_count)).min?

/-- The indices (into the full provider list) of the tie set
`best_providers = [p for p in healthy_providers if p.failure_count ==
healthy_providers[0].failure_count]`.  Python's sort is stable, so the tie
set is exactly the healthy min-count providers in original pool order; indices
model the object identities `random.choice` picks among. -/
def bestIndices (ps : List Provider) : List ℕ :=
  (List.range ps.length).filter (fun i =>
    match ps[i]? with
    | some p => p.is_healthy ∧ some p.failure_count = minFailureCount ps
    | none => False)

/-- `ProviderPool.get_available_provider`, with `random.choice` modelled by
the index argument `choice`: `none` when no provider is healthy, otherwise
the index of the chosen member of the tie set. -/
def get_available_provider_idx (ps : List Provider) (choice : ℕ) : Option ℕ :=
  if healthyProviders ps = [] then none
  else (bestIndices ps)[choice % (bestIndices ps).length]?

/-- The provider object `get_available_provider` returns. -/
def get_available_provider (ps : List Provider) (choice : ℕ) : Option Provider :=
  (get_available_provider_idx ps choice).bind (ps[·]?)

/-- `ProviderPool.mark_provider_failed`: delegates to `mark_failure`. -/
def mark_provider_failed (p : Provider) : Provider :=
  p.mark_failure

/-- `ProviderPool.get_healthy_providers`. -/
def get_healthy_providers (ps : List Provider) : List Provider :=
  healthyProviders ps

/-! ## Rate limiter (`src/core/rate_limiter.py`) -/

/-- `RedisRateLimiter.acquire`.  The Redis sorted set for the key is the list
`entries` of member timestamps (distinct members; `zadd` of an existing member
leaves the set unchanged).  `hasClient` models `self.redis_client` being set;
`pipelineOk` models the atomic pipeline (zremrangebyscore / zcard / zadd /
expire) completing without `redis.RedisError`; `zremOk` models the follow-up
`zrem` on the over-limit path likewise.  Returns `some msg` when
`RateLimitExceeded(msg)` is raised, `none` when the call returns normally,
together with the resulting sorted set. -/
def rl_acquire (hasClient pipelineOk zremOk : Bool) (rate_limit : ℕ)
    (entries : List ℤ) (now : ℤ) : Option String × List ℤ :=
  if !hasClient then
    -- "Redis not available, skipping rate limiting"
    (none, entries)
  else if !pipelineOk then
    -- redis.RedisError from the pipeline: caught, "Continue without rate limiting"
    (none, entries)
  else
    -- zremrangebyscore(key, 0, window_start) with window_start = now - 60
    let afterRemove := entries.filter (fun t => !(0 ≤ t ∧ t ≤ now - 60))
    -- zcard before the zadd of the current request
    let current_count := afterRemove.length
    -- zadd(key, str(current_time): current_time)
    let afterAdd := if now ∈ afterRemove then afterRemove else now :: afterRemove
    if current_count ≥ rate_limit then
      if zremOk then
        -- zrem removes the member str(current_time), then RateLimitExceeded
        (some ("Rate limit exceeded: " ++ toString current_count ++ "/" ++
               toString rate_limit ++ " requests per minute"),
         afterAdd.filter (· ≠ now))
      else
        -- redis.RedisError from the zrem: caught, request stays admitted
        (none, afterAdd)
    else
      (none, afterAdd)

/-- `RedisRateLimiter.health_check`: `False` without a client, else whether
`ping` succeeds; exceptions are swallowed into `False`, never raised. -/
def rl_health_check (hasClient pingOk : Bool) : Bool :=
  if !hasClient then false else pingOk

/-! ## JSON values and `json.loads`

`json.loads` is Python standard-library code; it is modelled here by an
executable recursive-descent parser over the JSON grammar (objects, arrays,
strings with escapes, numbers as rationals, `true`/`false`/`null`).  A `Json`
value doubles as the model of the dynamically-typed Python values stored in
the parsed dict and in `EvaluationResult` fields. -/

inductive Json where
  | null
  | bool (b : Bool)
  | num (q : ℚ)
  | str (s : String)
  | arr (elems : List Json)
  | obj (members : List (String × Json))
deriving Repr

/-- The whitespace characters of the JSON grammar. -/
def isJsonWs (c : Char) : Bool :=
  c = ' ' || c = '\t' || c = '\n' || c = '\r'

def skipWs (cs : List Char) : List Char :=
  cs.dropWhile isJsonWs

/-- Single-character string escapes. -/
def escChar : Char → Option Char
  | '"' => some '"'
  | '\\' => some '\\'
  | '/' => some '/'
  | 'b' => some (Char.ofNat 8)
  | 'f' => some (Char.ofNat 12)
  | 'n' => some '\n'
  | 'r' => some '\r'
  | 't' => some '\t'
  | _ => none

def hexVal (c : Char) : Option ℕ :=
  if '0' ≤ c ∧ c ≤ '9' then some (c.toNat - 48)
  else if 'a' ≤ c ∧ c ≤ 'f' then some (c.toNat - 87)
  else if 'A' ≤ c ∧ c ≤ 'F' then some (c.toNat - 55)
  else none

/-- Parse the body of a JSON string after the opening quote; returns the
decoded characters and the input after the closing quote. -/
def parseStringAux : List Char → Option (List Char × List Char)
  | '"' :: rest => some ([], rest)
  | '\\' :: 'u' :: a :: b :: c :: d :: rest =>
      match hexVal a, hexVal b, hexVal c, hexVal d with
      | some ha, some hb, some hc, some hd =>
          (parseStringAux rest).map (fun r =>
            (Char.ofNat (((ha * 16 + hb) * 16 + hc) * 16 + hd) :: r.1, r.2))
      | _, _, _, _ => none
  | '\\' :: e :: rest =>
      match escChar e with
      | some ch => (parseStringAux rest).map (fun r => (ch :: r.1, r.2))
      | none => none
  | ch :: rest =>
      if ch.toNat < 32 then none
      else (parseStringAux rest).map (fun r => (ch :: r.1, r.2))
  | [] => none

def digitsToNat (ds : List Char) : ℕ :=
  ds.foldl (fun n c => n * 10 + (c.toNat - 48)) 0

/-- Parse a JSON exponent part (after the `e`/`E`). -/
def parseExp (cs : List Char) : Option (ℤ × List Char) :=
  let p : ℤ × List Char :=
    match cs with
    | '+' :: r => (1, r)
    | '-' :: r => (-1, r)
    | _ => (1, cs)
  let ds := p.2.takeWhile Char.isDigit
  let rest := p.2.dropWhile Char.isDigit
  if ds = [] then none else some (p.1 * (digitsToNat ds : ℤ), rest)

/-- Parse a JSON number as an exact rational. -/
def parseNumber (cs : List Char) : Option (ℚ × List Char) :=
  let s : Bool × List Char :=
    match cs with
    | '-' :: r => (true, r)
    | _ => (false, cs)
  let ds := s.2.takeWhile Char.isDigit
  let cs2 := s.2.dropWhile Char.isDigit
  if ds = [] then none else
  let ip : ℚ := (digitsToNat ds : ℚ)
  let frac : Option (ℚ × List Char) :=
    match cs2 with
    | '.' :: r =>
        let fs := r.takeWhile Char.isDigit
        let r2 := r.dropWhile Char.isDigit
        if fs = [] then none
        else some (ip + (digitsToNat fs : ℚ) / ((10 : ℚ) ^ fs.length), r2)
    | _ => some (ip, cs2)
  match frac with
  | none => none
  | some (v, cs3) =>
    let ex : Option (ℚ × List Char) :=
      match cs3 with
      | 'e' :: r => (parseExp r).map (fun p => (v * (10 : ℚ) ^ p.1, p.2))
      | 'E' :: r => (parseExp r).map (fun p => (v * (10 : ℚ) ^ p.1, p.2))
      | _ => some (v, cs3)
    ex.map (fun p => (if s.1 then -p.1 else p.1, p.2))

mutual

/-- Parse one JSON value (fuel-indexed recursive descent). -/
def parseVal : ℕ → List Char → Option (Json × List Char)
  | 0, _ => none
  | f + 1, cs =>
    match cs with
    | '{' :: rest =>
        (parseMembersStart f (skipWs rest)).map (fun r => (Json.obj r.1, r.2))
    | '[' :: rest =>
        (parseElemsStart f (skipWs rest)).map (fun r => (Json.arr r.1, r.2))
    | '"' :: rest =>
        (parseStringAux rest).map (fun r => (Json.str (String.mk r.1), r.2))
    | 't' :: 'r' :: 'u' :: 'e' :: rest => some (Json.bool true, rest)
    | 'f' :: 'a' :: 'l' :: 's' :: 'e' :: rest => some (Json.bool false, rest)
    | 'n' :: 'u' :: 'l' :: 'l' :: rest => some (Json.null, rest)
    | _ => (parseNumber cs).map (fun r => (Json.num r.1, r.2))

/-- Object body after the opening brace (and whitespace). -/
def parseMembersStart : ℕ → List Char → Option (List (String × Json) × List Char)
  | 0, _ => none
  | f + 1, cs =>
    match cs with
    | '}' :: rest => some ([], rest)
    | _ => parseMembers f cs

/-- One or more `"key": value` members separated by commas, up to the
closing brace. -/
def parseMembers : ℕ → List Char → Option (List (String × Json) × List Char)
  | 0, _ => none
  | f + 1, cs =>
    match cs with
    | '"' :: rest =>
      match parseStringAux rest with
      | none => none
      | some (key, r1) =>
        match skipWs r1 with
        | ':' :: r2 =>
          match parseVal f (skipWs r2) with
          | none => none
          | some (v, r3) =>
            match skipWs r3 with
            | ',' :: r4 =>
                (parseMembers f (skipWs r4)).map
                  (fun p => ((String.mk key, v) :: p.1, p.2))
            | '}' :: r4 => some ([(String.mk key, v)], r4)
            | _ => none
        | _ => none
    | _ => none

/-- Array body after the opening bracket (and whitespace). -/
def parseElemsStart : ℕ → List Char → Option (List Json × List Char)
  | 0, _ => none
  | f + 1, cs =>
    match cs with
    | ']' :: rest => some ([], rest)
    | _ => parseElems f cs

/-- One or more array elements separated by commas, up to the closing
bracket. -/
def parseElems : ℕ → List Char → Option (List Json × List Char)
  | 0, _ => none
  | f + 1, cs =>
    match parseVal f cs with
    | none => none
    | some (v, r1) =>
      match skipWs r1 with
      | ',' :: r2 => (parseElems f (skipWs r2)).map (fun p => (v :: p.1, p.2))
      | ']' :: r2 => some ([v], r2)
      | _ => none

end

/-- The model of `json.loads`: parse one value, insist the remainder is
whitespace.  The fuel `4 * length + 4` strictly dominates the recursion
depth, which advances past at least one character every three calls. -/
def json_loads (cs : List Char) : Option Json :=
  match parseVal (4 * cs.length + 4) (skipWs cs) with
  | some (v, rest) => if skipWs rest = [] then some v else none
  | none => none

/-! ## Response parsing (`EvaluationEngine._parse_evaluation_response`) -/

/-- `str.find`'s scan: index (from offset `k`) of the first occurrence. -/
def findIdxAux (c : Char) : List Char → ℕ → Option ℕ
  | [], _ => none
  | x :: xs, k => if x = c then some k else findIdxAux c xs (k + 1)

/-- `str.rfind`'s scan: index (from offset `k`) of the last occurrence. -/
def rfindAux (c : Char) : List Char → ℕ → Option ℕ
  | [], _ => none
  | x :: xs, k =>
      match rfindAux c xs (k + 1) with
      | some j => some j
      | none => if x = c then some k else none

/-- Python `response.find(c)`: first index, or `-1`. -/
def py_find (s : String) (c : Char) : ℤ :=
  match findIdxAux c s.data 0 with
  | some i => (i : ℤ)
  | none => -1

/-- Python `response.rfind(c)`: last index, or `-1`. -/
def py_rfind (s : String) (c : Char) : ℤ :=
  match rfindAux c s.data 0 with
  | some i => (i : ℤ)
  | none => -1

/-- Python `s[a:b]` for `0 ≤ a, b` (empty when `b ≤ a`). -/
def pySlice (s : String) (a b : ℕ) : List Char :=
  (s.data.drop a).take (b - a)

/-- Python `str.strip()` (whitespace trim). -/
def pyStrip (s : String) : String := s.trim

/-- `dict.get` on the members of a parsed JSON object; `json.loads` keeps the
last of duplicate keys, so lookup scans from the end. -/
def dictGet (kvs : List (String × Json)) (k : String) : Option Json :=
  (kvs.reverse.find? (fun kv => kv.1 == k)).map (·.2)

/-- The `EvaluationResult` dataclass (`src/core/evaluator.py`); fields hold
dynamically-typed Python values, modelled as `Json`. -/
structure EvaluationResult where
  explanation : Json
  confidence : Option Json := none
  provider : Option String := none
  criteria_scores : Option Json := none
deriving Repr

/-- The fallback `EvaluationResult` built when no JSON object can be
extracted: trimmed raw text, confidence `0.5`, no criteria scores. -/
def fallbackResult (response : String) (provider_name : String) : EvaluationResult :=
  { explanation := .str (pyStrip response),
    confidence := some (.num (1 / 2)),
    provider := some provider_name }

/-- `EvaluationEngine._parse_evaluation_response`: slice from the first `\x7b`
to the last `\x7d`, `json.loads` it, read the optional fields with `dict.get`;
any failure inside the `try` (no braces found is handled explicitly; a parse
error or a `.get` on a non-dict raises) yields the fallback result. -/
def parse_evaluation_response (response : String) (provider_name : String) :
    EvaluationResult :=
  let start_idx := py_find response '{'
  let end_idx := py_rfind response '}' + 1
  if start_idx = -1 ∨ end_idx = 0 then
    fallbackResult response provider_name
  else
    match json_loads (pySlice response start_idx.toNat end_idx.toNat) with
    | some (Json.obj kvs) =>
        { explanation := (dictGet kvs "explanation").getD (.str (pyStrip response)),
          confidence := dictGet kvs "confidence",
          provider := some provider_name,
          criteria_scores := dictGet kvs "criteria_scores" }
    | some _ => fallbackResult response provider_name
    | none => fallbackResult response provider_name

/-- The response-parsing contract as the spec words it: if the text contains
no `\x7b`, or no `\x7d` after the first `\x7b`, fall back; otherwise parse the
substring from the first `\x7b` through the last `\x7d` as JSON — on success
take the optional fields (trimmed raw text when `explanation` is absent), on
parse failure the same fallback; `provider` is always the producing
provider's identifier. -/
def parse_evaluation_response_spec (response : String) (provider_name : String) :
    EvaluationResult :=
  match findIdxAux '{' response.data 0 with
  | none => fallbackResult response provider_name
  | some i =>
    match rfindAux '}' response.data 0 with
    | none => fallbackResult response provider_name
    | some j =>
      if j ≤ i then fallbackResult response provider_name
      else
        match json_loads ((response.data.drop i).take (j + 1 - i)) with
        | some (Json.obj kvs) =>
            { explanation := (dictGet kvs "explanation").getD (.str (pyStrip response)),
              confidence := dictGet kvs "confidence",
              provider := some provider_name,
              criteria_scores := dictGet kvs "criteria_scores" }
        | some _ => fallbackResult response provider_name
        | none => fallbackResult response provider_name

/-! ## Orchestrator health aggregation (`EvaluationEngine.health_check`) -/

/-- `EvaluationEngine.health_check`: each sub-check marks its component
"unhealthy" only if the sub-check raises.  `rl_health_check` never raises —
its boolean return value is discarded — so the "redis" component is computed
from the mere completion of the call.  The providers component is "healthy"
exactly when `get_healthy_providers` is nonempty.  Returns the pair
(components["redis"], components["providers"]). -/
def engine_health_check (hasClient pingOk : Bool) (ps : List Provider) :
    String × String :=
  let _ := rl_health_check hasClient pingOk  -- return value ignored by the code
  let redis := "healthy"                     -- the try body cannot raise
  let providers := if get_healthy_providers ps ≠ [] then "healthy" else "unhealthy"
  (redis, providers)

/-! ## Orchestrator evaluation flow (`EvaluationEngine`) -/

/-- `EvaluationEngine._perform_evaluation`: select a provider (no healthy one
raises `ServiceUnavailable("No providers available")`); call `generate`; on
success parse the response, on failure call `pool.mark_provider_failed` (a
second `mark_failure` on top of the one `generate` itself performed) and
re-raise.  Returns the result, the updated provider list, and whether
`provider.generate` was invoked. -/
def perform_evaluation (ps : List Provider) (choice : ℕ) (gen : GenOutcome) :
    Except PyError EvaluationResult × List Provider × Bool :=
  match get_available_provider_idx ps choice with
  | none => (.error (.serviceUnavailable "No providers available"), ps, false)
  | some i =>
    match ps[i]? with
    | none => (.error (.serviceUnavailable "No providers available"), ps, false)
    | some p =>
      match p.generate gen with
      | (.ok content, p2) =>
          (.ok (parse_evaluation_response content p2.model_name), ps.set i p2, true)
      | (.error msg, p2) =>
          (.error (.other msg), ps.set i (mark_provider_failed p2), true)

/-- A fresh `CircuitBreaker` as built by `__init__` from the settings. -/
def circuitBreakerInit (threshold : ℕ) (timeout : ℤ) : CircuitBreaker :=
  { failure_threshold := threshold, recovery_timeout := timeout }

/-- The state `EvaluationEngine.evaluate` leaves behind, with the result the
caller sees. -/
structure EvaluateOutcome where
  result : Except PyError EvaluationResult
  entries : List ℤ
  breaker : CircuitBreaker
  providers : List Provider

/-- `EvaluationEngine.evaluate`: acquire the rate limiter, then run
`_perform_evaluation` through the circuit breaker; the blanket
`except Exception` handler re-raises every failure — the rate limiter's
`RateLimitExceeded` included — as
`EvaluationError("Failed to evaluate: " + str(e))`. -/
def evaluate (hasClient pipelineOk zremOk : Bool) (rate_limit : ℕ)
    (entries : List ℤ) (nowRl : ℤ) (cb : CircuitBreaker) (nowCb : ℤ)
    (ps : List Provider) (choice : ℕ) (gen : GenOutcome) : EvaluateOutcome :=
  match rl_acquire hasClient pipelineOk zremOk rate_limit entries nowRl with
  | (some msg, entries2) =>
      ⟨.error (.evaluationError ("Failed to evaluate: " ++ msg)), entries2, cb, ps⟩
  | (none, entries2) =>
      let pe := perform_evaluation ps choice gen
      let c := cb.call nowCb pe.1
      let ps2 := if c.2.2 then pe.2.1 else ps
      match c.1 with
      | .ok res => ⟨.ok res, entries2, c.2.1, ps2⟩
      | .error e =>
          ⟨.error (.evaluationError ("Failed to evaluate: " ++ e.msg)),
           entries2, c.2.1, ps2⟩

/-- Repeatedly push the same protected-call outcome `r` through the breaker,
one call per timestamp. -/
def runCalls (r : Except PyError EvaluationResult) (cb : CircuitBreaker) :
    List ℤ → CircuitBreaker
  | [] => cb
  | t :: ts => runCalls r ((cb.call t r).2.1) ts

/-- The spec's provider-health invariant: `isHealthy` is false exactly when
`failureCount ≥ maxFailures`. -/
def healthInvariant (p : Provider) : Prop :=
  p.is_healthy = false ↔ p.max_failures ≤ p.failure_count

/-- Whether a `generate` outcome is a failure (timeout, non-success status,
or backend rate-limiting). -/
def isGenFailure : GenOutcome → Bool
  | .ok _ => false
  | _ => true

/-! # Theorems -/

/-- Claim C1: when `RateLimiter.acquire` denies admission, `evaluate` does
NOT propagate `RateLimitExceeded` unchanged: the blanket `except Exception`
handler in `evaluate` re-raises it wrapped as `EvaluationError`.  At a
concrete denial (limit 1, one admission 30 s ago) the result is an
`EvaluationError`, and is not a `RateLimitExceeded` for any message. -/
theorem evaluate_wraps_rate_limit_denial :
    (evaluate true true true 1 [30] 60 (circuitBreakerInit 5 30) 60
        [{ model_name := "m" }] 0 (.ok "hi")).result =
      .error (.evaluationError
        "Failed to evaluate: Rate limit exceeded: 1/1 requests per minute") ∧
    ∀ m, (evaluate true true true 1 [30] 60 (circuitBreakerInit 5 30) 60
        [{ model_name := "m" }] 0 (.ok "hi")).result ≠
      .error (.rateLimitExceeded m) := by
  refine ⟨rfl, fun m h => ?_⟩
  rw [show (evaluate true true true 1 [30] 60 (circuitBreakerInit 5 30) 60
        [{ model_name := "m" }] 0 (.ok "hi")).result =
      .error (.evaluationError
        "Failed to evaluate: Rate limit exceeded: 1/1 requests per minute") from rfl] at h
  simp at h

/-- Claim C2 (counterexample): one failed `generate` inside one
`_perform_evaluation` raises the provider's `failure_count` from 0 to 2 —
`mark_failure` runs once inside `generate`'s handler and once more via
`pool.mark_provider_failed` — refuting "increments failureCount by
exactly 1". -/
theorem perform_evaluation_double_failure_count :
    ((perform_evaluation [{ model_name := "m" }] 0 .timeout).2.1.map
        (·.failure_count)) = [2] ∧
    ¬ ((perform_evaluation [{ model_name := "m" }] 0 .timeout).2.1.map
        (·.failure_count)) = [1] := by
  decide

/-- Claim C2 (amended): each failure of `provider.generate` within one
`_perform_evaluation` call increments the selected provider's
`failure_count` by exactly 2, and `is_healthy` stays true only while the
resulting count is below `max_failures`. -/
theorem perform_evaluation_failure_increments_twice :
    ∀ (ps : List Provider) (choice : ℕ) (gen : GenOutcome) (i : ℕ) (p : Provider),
      isGenFailure gen = true →
      get_available_provider_idx ps choice = some i →
      ps[i]? = some p →
      (perform_evaluation ps choice gen).2.1 =
        ps.set i { p with
          failure_count := p.failure_count + 2,
          is_healthy := p.is_healthy &&
            decide (p.failure_count + 2 < p.max_failures) } := by
  intro ps choice gen i p hgen hidx hp
  have hrec : ∀ q : Provider, mark_provider_failed q.mark_failure =
      { q with failure_count := q.failure_count + 2,
               is_healthy := q.is_healthy &&
                 decide (q.failure_count + 2 < q.max_failures) } := by
    intro q
    obtain ⟨n, h, c, m⟩ := q
    simp only [mark_provider_failed, Provider.mark_failure]
    split_ifs with h1 h2 <;> simp_all <;> omega
  unfold perform_evaluation
  simp only [hidx]
  simp only [hp]
  cases gen with
  | ok c => simp [isGenFailure] at hgen
  | rateLimited => simpa [Provider.generate] using congrArg (ps.set i) (hrec p)
  | httpError s => simpa [Provider.generate] using congrArg (ps.set i) (hrec p)
  | timeout => simpa [Provider.generate] using congrArg (ps.set i) (hrec p)

/-- Witness for C2's amended theorem at a concrete one-provider pool and a
timed-out `generate`. -/
theorem perform_evaluation_failure_increments_twice_witness :
    isGenFailure GenOutcome.timeout = true ∧
    get_available_provider_idx [(⟨"m", true, 0, 3⟩ : Provider)] 0 = some 0 ∧
    [(⟨"m", true, 0, 3⟩ : Provider)][0]? = some ⟨"m", true, 0, 3⟩ ∧
    (perform_evaluation [(⟨"m", true, 0, 3⟩ : Provider)] 0 .timeout).2.1 =
      [(⟨"m", true, 0, 3⟩ : Provider)].set 0
        { (⟨"m", true, 0, 3⟩ : Provider) with
          failure_count := (⟨"m", true, 0, 3⟩ : Provider).failure_count + 2,
          is_healthy := (⟨"m", true, 0, 3⟩ : Provider).is_healthy &&
            decide ((⟨"m", true, 0, 3⟩ : Provider).failure_count + 2 <
              (⟨"m", true, 0, 3⟩ : Provider).max_failures) } :=
  ⟨rfl, rfl, rfl,
    perform_evaluation_failure_increments_twice [⟨"m", true, 0, 3⟩] 0 .timeout 0
      ⟨"m", true, 0, 3⟩ rfl rfl rfl⟩

/-- Claim C3: the orchestrator's health check reports the providers
component "unhealthy" exactly when no provider is healthy, but it reports
the rate-limiter store component "healthy" for EVERY input — including when
the store connectivity check fails (`rl_health_check` returning `false` is
ignored; it never raises, and only an exception would mark the component
"unhealthy"). -/
theorem health_check_store_component_always_healthy :
    (∀ (hasClient pingOk : Bool) (ps : List Provider),
        (engine_health_check hasClient pingOk ps).1 = "healthy" ∧
        ((engine_health_check hasClient pingOk ps).2 = "unhealthy" ↔
          healthyProviders ps = [])) ∧
    rl_health_check false false = false := by
  refine ⟨fun hc pok ps => ⟨rfl, ?_⟩, rfl⟩
  by_cases h : healthyProviders ps = []
  · simp [engine_health_check, get_healthy_providers, h]
  · simp [engine_health_check, get_healthy_providers, h]

/-- Claim C4 (counterexample): a successful health-check probe on a provider
with `failure_count = 3 = max_failures` sets `is_healthy := true` without
resetting `failure_count`, so afterwards the claimed invariant
(`isHealthy = false` exactly when `failureCount ≥ maxFailures`) is false and
the count was not reset by the successful call. -/
theorem probe_breaks_health_invariant :
    ¬ healthInvariant (Provider.health_check (⟨"m", false, 3, 3⟩ : Provider) true) ∧
    (Provider.health_check (⟨"m", false, 3, 3⟩ : Provider) true).failure_count ≠ 0 := by
  constructor
  · intro h
    simp [healthInvariant, Provider.health_check] at h
  · decide

/-- Claim C4 (amended): `mark_failure` and `mark_success` preserve the
invariant "`is_healthy` is false exactly when `failure_count ≥ max_failures`"
(for `max_failures ≥ 1`), and `mark_success` resets the count with
`is_healthy := true`; the health-check probe instead copies the probe result
into `is_healthy` and leaves `failure_count` unchanged, so it does not
maintain the invariant. -/
theorem mark_calls_maintain_health_invariant :
    ∀ p : Provider, healthInvariant p → 1 ≤ p.max_failures →
      (healthInvariant p.mark_failure ∧ healthInvariant p.mark_success ∧
       p.mark_success.is_healthy = true ∧ p.mark_success.failure_count = 0 ∧
       ∀ ok, (p.health_check ok).is_healthy = ok ∧
             (p.health_check ok).failure_count = p.failure_count) := by
  intro p hinv hmax
  refine ⟨?_, ?_, rfl, rfl, fun ok => ⟨rfl, rfl⟩⟩
  · unfold healthInvariant Provider.mark_failure at *
    dsimp only
    split_ifs with h
    · simpa using h
    · constructor
      · intro hf
        exact absurd (hinv.mp hf) (by omega)
      · intro hle
        omega
  · unfold healthInvariant Provider.mark_success at *
    simp
    omega

/-- Witness for C4's amended theorem at a fresh provider. -/
theorem mark_calls_maintain_health_invariant_witness :
    healthInvariant ({ model_name := "m" } : Provider) ∧
    1 ≤ ({ model_name := "m" } : Provider).max_failures ∧
    healthInvariant ({ model_name := "m" } : Provider).mark_failure := by
  refine ⟨by simp [healthInvariant], by decide, ?_⟩
  exact (mark_calls_maintain_health_invariant { model_name := "m" }
    (by simp [healthInvariant]) (by decide)).1

/-- A nonempty list has a last element. -/
theorem getLast?_some_of_ne_nil : ∀ (l : List ℤ), l ≠ [] → ∃ x, l.getLast? = some x
  | [a], _ => ⟨a, rfl⟩
  | a :: b :: t, _ => by
      rw [List.getLast?_cons_cons]
      exact getLast?_some_of_ne_nil (b :: t) (by simp)

/-- Admission never changes the counters or timestamps of the breaker. -/
theorem admission_ok_fields :
    ∀ (cb : CircuitBreaker) (now : ℤ) (cb' : CircuitBreaker),
      cb.admission now = .ok cb' →
      cb'.failure_count = cb.failure_count ∧
      cb'.failure_threshold = cb.failure_threshold ∧
      cb'.recovery_timeout = cb.recovery_timeout ∧
      cb'.last_failure_time = cb.last_failure_time := by
  intro cb now cb' h
  unfold CircuitBreaker.admission at h
  cases hst : cb.state <;> rw [hst] at h <;> dsimp only at h
  · cases h
    exact ⟨rfl, rfl, rfl, rfl⟩
  · split_ifs at h
    cases h
    exact ⟨rfl, rfl, rfl, rfl⟩
  · cases h
    exact ⟨rfl, rfl, rfl, rfl⟩

/-- From CLOSED, a failing protected call lands in `onFailure`. -/
theorem call_closed_failure :
    ∀ (cb : CircuitBreaker) (t : ℤ) (e : PyError),
      cb.state = .closed →
      (cb.call t (.error (α := EvaluationResult) e)).2.1 = cb.onFailure t := by
  intro cb t e h
  unfold CircuitBreaker.call CircuitBreaker.admission
  rw [h]

/-- Running consecutive failing calls from a CLOSED breaker that stays within
the threshold: counters accumulate, the last timestamp is recorded, and the
state is OPEN exactly when the threshold is reached by a nonempty run. -/
theorem runCalls_closed_spec :
    ∀ (e : PyError) (ts : List ℤ) (cb : CircuitBreaker),
      cb.state = .closed →
      cb.failure_count + ts.length ≤ cb.failure_threshold →
      (runCalls (.error e) cb ts).failure_threshold = cb.failure_threshold ∧
      (runCalls (.error e) cb ts).recovery_timeout = cb.recovery_timeout ∧
      (runCalls (.error e) cb ts).failure_count = cb.failure_count + ts.length ∧
      (runCalls (.error e) cb ts).last_failure_time =
        (match ts.getLast? with
         | some t => some t
         | none => cb.last_failure_time) ∧
      (runCalls (.error e) cb ts).state =
        (if cb.failure_threshold ≤ cb.failure_count + ts.length ∧ ts ≠ [] then
          .opened else .closed) := by
  intro e ts
  induction ts with
  | nil =>
      intro cb h1 h2
      simpa [runCalls] using h1
  | cons t ts ih =>
      intro cb h1 h2
      have hstep : (cb.call t (.error (α := EvaluationResult) e)).2.1 = cb.onFailure t :=
        call_closed_failure cb t e h1
      cases ts with
      | nil =>
          rw [show runCalls (.error e) cb [t] =
                runCalls (.error e) ((cb.call t (.error (α := EvaluationResult) e)).2.1) []
                from rfl, hstep]
          simp only [runCalls]
          refine ⟨rfl, rfl, rfl, rfl, ?_⟩
          show (if cb.failure_count + 1 ≥ cb.failure_threshold then CircuitBreakerState.opened
                else cb.state) = _
          rw [h1]
          by_cases hT : cb.failure_threshold ≤ cb.failure_count + 1
          · rw [if_pos (by omega),
                if_pos ⟨by simp only [List.length_cons, List.length_nil]; omega, by simp⟩]
          · rw [if_neg (by omega), if_neg (fun hcon => hT (by
              have hA := hcon.1
              simp only [List.length_cons, List.length_nil] at hA
              omega))]
      | cons t2 ts2 =>
          have hc1 : (cb.onFailure t).failure_count = cb.failure_count + 1 := rfl
          have hc2 : (cb.onFailure t).failure_threshold = cb.failure_threshold := rfl
          have hlt : cb.failure_count + 1 < cb.failure_threshold := by
            simp only [List.length_cons] at h2
            omega
          have hcb' : (cb.onFailure t).state = .closed := by
            unfold CircuitBreaker.onFailure
            dsimp only
            rw [if_neg (by omega), h1]
          have hrest := ih (cb.onFailure t) hcb'
            (by rw [hc1, hc2]
                simp only [List.length_cons] at h2 ⊢
                omega)
          rw [show runCalls (.error e) cb (t :: t2 :: ts2) =
                runCalls (.error e) ((cb.call t (.error (α := EvaluationResult) e)).2.1)
                  (t2 :: ts2) from rfl, hstep]
          obtain ⟨l, hl⟩ := getLast?_some_of_ne_nil (t2 :: ts2) (by simp)
          refine ⟨hrest.1, hrest.2.1, ?_, ?_, ?_⟩
          · rw [hrest.2.2.1, hc1]
            simp only [List.length_cons]
            omega
          · simp only [hrest.2.2.2.1, List.getLast?_cons_cons, hl]
          · rw [hrest.2.2.2.2, hc1, hc2]
            apply if_congr _ rfl rfl
            constructor
            · rintro ⟨hA, -⟩
              exact ⟨by simp only [List.length_cons] at hA ⊢; omega, by simp⟩
            · rintro ⟨hA, -⟩
              exact ⟨by simp only [List.length_cons] at hA ⊢; omega, by simp⟩

/-- Claim C5: for every threshold `T ≥ 1`, starting from CLOSED with
`failure_count = 0`, the state is still CLOSED strictly before the `T`-th
consecutive failure and OPEN after exactly `T` of them, and the `(T+1)`-th
call issued within `recovery_timeout` of the last failure is rejected with
`ServiceUnavailable` without the wrapped function being invoked (third
component `false`). -/
theorem breaker_opens_after_threshold_failures :
    ∀ (T : ℕ) (timeout : ℤ) (ts : List ℤ) (e : PyError),
      1 ≤ T → ts.length = T →
      ((∀ k, k < T →
          (runCalls (.error e) (circuitBreakerInit T timeout) (ts.take k)).state = .closed) ∧
       (runCalls (.error e) (circuitBreakerInit T timeout) ts).state = .opened ∧
       (runCalls (.error e) (circuitBreakerInit T timeout) ts).failure_count = T ∧
       ∀ (now tl : ℤ) (r : Except PyError EvaluationResult),
         ts.getLast? = some tl → now - tl < timeout →
         (runCalls (.error e) (circuitBreakerInit T timeout) ts).call now r =
           (.error (.serviceUnavailable "Circuit breaker is open"),
            runCalls (.error e) (circuitBreakerInit T timeout) ts, false)) := by
  intro T timeout ts e hT hlen
  have hts : ts ≠ [] := by
    intro h
    rw [h] at hlen
    simp at hlen
    omega
  have hmain := runCalls_closed_spec e ts (circuitBreakerInit T timeout) rfl
    (by simp [circuitBreakerInit, hlen])
  refine ⟨?_, ?_, ?_, ?_⟩
  · intro k hk
    have htake := runCalls_closed_spec e (ts.take k) (circuitBreakerInit T timeout) rfl
      (by simp only [circuitBreakerInit, List.length_take, hlen]
          omega)
    rw [htake.2.2.2.2]
    rw [if_neg]
    rintro ⟨hA, -⟩
    simp only [circuitBreakerInit, List.length_take, hlen] at hA
    omega
  · rw [hmain.2.2.2.2, if_pos ⟨by simp [circuitBreakerInit, hlen], hts⟩]
  · rw [hmain.2.2.1]
    simp [circuitBreakerInit, hlen]
  · intro now tl r hlast htime
    have hstate : (runCalls (.error e) (circuitBreakerInit T timeout) ts).state = .opened := by
      rw [hmain.2.2.2.2, if_pos ⟨by simp [circuitBreakerInit, hlen], hts⟩]
    have hlft : (runCalls (.error e) (circuitBreakerInit T timeout) ts).last_failure_time =
        some tl := by
      rw [hmain.2.2.2.1, hlast]
    have hrt : (runCalls (.error e) (circuitBreakerInit T timeout) ts).recovery_timeout =
        timeout := hmain.2.1
    unfold CircuitBreaker.call CircuitBreaker.admission
    rw [hstate, hlft, hrt]
    dsimp only [Option.getD]
    rw [if_pos htime]

/-- Witness for C5 at threshold 2, failures at times 5 and 7, probe at 10. -/
theorem breaker_opens_after_threshold_failures_witness :
    (runCalls (.error (.other "x")) (circuitBreakerInit 2 30) ([5, 7].take 1)).state =
      .closed ∧
    (runCalls (.error (.other "x")) (circuitBreakerInit 2 30) [5, 7]).state = .opened ∧
    (runCalls (.error (.other "x")) (circuitBreakerInit 2 30) [5, 7]).call 10
        (.ok ({ explanation := Json.null } : EvaluationResult)) =
      (.error (.serviceUnavailable "Circuit breaker is open"),
       runCalls (.error (.other "x")) (circuitBreakerInit 2 30) [5, 7], false) := by
  have h := breaker_opens_after_threshold_failures 2 30 [5, 7] (.other "x")
    (by decide) rfl
  exact ⟨h.1 1 (by decide), h.2.1, h.2.2.2 10 7 _ rfl (by decide)⟩

/-- Claim C6: an OPEN breaker (its count at or past the threshold, as every
reachable OPEN state has) whose recovery timeout has elapsed admits the next
call as a probe through HALF_OPEN; a successful probe yields CLOSED with
`failure_count = 0`, a failing probe returns to OPEN with the count
incremented and `last_failure_time` refreshed. -/
theorem breaker_recovery_probe :
    ∀ (cb : CircuitBreaker) (t now : ℤ),
      cb.state = .opened →
      cb.last_failure_time = some t →
      cb.failure_threshold ≤ cb.failure_count →
      cb.recovery_timeout ≤ now - t →
      (cb.admission now = .ok { cb with state := .halfOpen } ∧
       (∀ a : EvaluationResult, cb.call now (.ok a) =
         (.ok a, { cb with state := .closed, failure_count := 0 }, true)) ∧
       (∀ e : PyError, cb.call now (.error (α := EvaluationResult) e) =
         (.error e, { cb with state := .opened,
                              failure_count := cb.failure_count + 1,
                              last_failure_time := some now }, true))) := by
  intro cb t now hst hlast hcount htime
  have hadm1 : cb.admission now = .ok { cb with state := .halfOpen } := by
    unfold CircuitBreaker.admission
    rw [hst, hlast]
    dsimp only [Option.getD]
    rw [if_neg (by omega)]
  refine ⟨hadm1, fun a => ?_, fun e => ?_⟩
  · unfold CircuitBreaker.call
    rw [hadm1]
    rfl
  · unfold CircuitBreaker.call
    rw [hadm1]
    dsimp only
    unfold CircuitBreaker.onFailure
    dsimp only
    rw [if_pos (by omega)]

/-- Witness for C6 at a concrete OPEN breaker whose timeout has elapsed. -/
theorem breaker_recovery_probe_witness :
    ((⟨2, 10, 2, some 0, .opened⟩ : CircuitBreaker).call 10
        (.ok ({ explanation := Json.null } : EvaluationResult)) =
      (.ok { explanation := Json.null },
       (⟨2, 10, 0, some 0, .closed⟩ : CircuitBreaker), true)) ∧
    ((⟨2, 10, 2, some 0, .opened⟩ : CircuitBreaker).call 10
        (.error (α := EvaluationResult) (.other "boom")) =
      (.error (.other "boom"), (⟨2, 10, 3, some 10, .opened⟩ : CircuitBreaker), true)) := by
  have h := breaker_recovery_probe ⟨2, 10, 2, some 0, .opened⟩ 0 10 rfl rfl
    (by decide) (by decide)
  exact ⟨h.2.1 { explanation := Json.null }, h.2.2 (.other "boom")⟩

/-- An admitted failing call records the failure via `onFailure`. -/
theorem call_error_admitted :
    ∀ (cb : CircuitBreaker) (now : ℤ) (e : PyError) (cb2 : CircuitBreaker),
      cb.admission now = .ok cb2 →
      cb.call now (.error (α := EvaluationResult) e) = (.error e, cb2.onFailure now, true) := by
  intro cb now e cb2 hadm
  unfold CircuitBreaker.call
  rw [hadm]

/-- A rejected call leaves the breaker untouched and skips the function. -/
theorem call_error_rejected :
    ∀ (cb : CircuitBreaker) (now : ℤ) (e : PyError) (e2 : PyError),
      cb.admission now = .error e2 →
      cb.call now (.error (α := EvaluationResult) e) = (.error e2, cb, false) := by
  intro cb now e e2 hadm
  unfold CircuitBreaker.call
  rw [hadm]

/-- Claim C10: every admitted failing protected call increments the breaker's
`failure_count` and records `last_failure_time`; with no healthy provider,
`_perform_evaluation` raises `ServiceUnavailable` without invoking any
provider's `generate` (flag `false`, pool unchanged); hence a threshold's
worth of consecutive no-provider outcomes opens the breaker. -/
theorem breaker_counts_service_unavailable_failures :
    (∀ (cb : CircuitBreaker) (now : ℤ) (e : PyError),
        (cb.call now (.error (α := EvaluationResult) e)).2.2 = true →
        ((cb.call now (.error (α := EvaluationResult) e)).2.1.failure_count =
            cb.failure_count + 1 ∧
         (cb.call now (.error (α := EvaluationResult) e)).2.1.last_failure_time =
            some now)) ∧
    (∀ (ps : List Provider) (choice : ℕ) (gen : GenOutcome),
        healthyProviders ps = [] →
        perform_evaluation ps choice gen =
          (.error (.serviceUnavailable "No providers available"), ps, false)) ∧
    (∀ (T : ℕ) (timeout : ℤ) (ts : List ℤ) (ps : List Provider)
        (choice : ℕ) (gen : GenOutcome),
        1 ≤ T → ts.length = T → healthyProviders ps = [] →
        (runCalls (perform_evaluation ps choice gen).1
          (circuitBreakerInit T timeout) ts).state = .opened) := by
  have hperf : ∀ (ps : List Provider) (choice : ℕ) (gen : GenOutcome),
      healthyProviders ps = [] →
      perform_evaluation ps choice gen =
        (.error (.serviceUnavailable "No providers available"), ps, false) := by
    intro ps choice gen h
    unfold perform_evaluation get_available_provider_idx
    rw [if_pos h]
  refine ⟨?_, hperf, ?_⟩
  · intro cb now e hinv
    cases hadm : cb.admission now with
    | error e2 =>
        rw [call_error_rejected cb now e e2 hadm] at hinv
        simp at hinv
    | ok cb2 =>
        rw [call_error_admitted cb now e cb2 hadm]
        unfold CircuitBreaker.onFailure
        dsimp only
        exact ⟨by rw [(admission_ok_fields cb now cb2 hadm).1], rfl⟩
  · intro T timeout ts ps choice gen hT hlen hps
    rw [hperf ps choice gen hps]
    have hts : ts ≠ [] := by
      intro h
      rw [h] at hlen
      simp at hlen
      omega
    have hmain := runCalls_closed_spec (.serviceUnavailable "No providers available") ts
      (circuitBreakerInit T timeout) rfl (by simp [circuitBreakerInit, hlen])
    rw [hmain.2.2.2.2, if_pos ⟨by simp [circuitBreakerInit, hlen], hts⟩]

/-- Witness for C10 at concrete breakers and an all-unhealthy pool. -/
theorem breaker_counts_service_unavailable_failures_witness :
    (((circuitBreakerInit 5 30).call 4
        (.error (α := EvaluationResult) (.serviceUnavailable "No providers available"))).2.1.failure_count = 1 ∧
     ((circuitBreakerInit 5 30).call 4
        (.error (α := EvaluationResult) (.serviceUnavailable "No providers available"))).2.1.last_failure_time = some 4) ∧
    perform_evaluation [⟨"m", false, 3, 3⟩] 0 (.ok "hi") =
      (.error (.serviceUnavailable "No providers available"), [⟨"m", false, 3, 3⟩], false) ∧
    (runCalls (perform_evaluation [⟨"m", false, 3, 3⟩] 0 (.ok "hi")).1
        (circuitBreakerInit 1 30) [9]).state = .opened := by
  have h := breaker_counts_service_unavailable_failures
  refine ⟨?_, h.2.1 [⟨"m", false, 3, 3⟩] 0 (.ok "hi") rfl,
          h.2.2 1 30 [9] [⟨"m", false, 3, 3⟩] 0 (.ok "hi") (by decide) rfl rfl⟩
  have h0 := h.1 (circuitBreakerInit 5 30) 4 (.serviceUnavailable "No providers available") rfl
  exact ⟨by rw [h0.1]
            rfl, h0.2⟩

/-- `rl_acquire` with a reachable client and successful pipeline, written
with its lets inlined (definitional unfolding). -/
theorem rl_acquire_connected (zok : Bool) (limit : ℕ) (entries : List ℤ) (now : ℤ) :
    rl_acquire true true zok limit entries now =
      (if (entries.filter (fun t => !(0 ≤ t ∧ t ≤ now - 60))).length ≥ limit then
         if zok then
           (some ("Rate limit exceeded: " ++
                  toString (entries.filter (fun t => !(0 ≤ t ∧ t ≤ now - 60))).length ++ "/" ++
                  toString limit ++ " requests per minute"),
            ((if now ∈ entries.filter (fun t => !(0 ≤ t ∧ t ≤ now - 60)) then
                entries.filter (fun t => !(0 ≤ t ∧ t ≤ now - 60))
              else now :: entries.filter (fun t => !(0 ≤ t ∧ t ≤ now - 60))).filter (· ≠ now)))
         else
           (none, if now ∈ entries.filter (fun t => !(0 ≤ t ∧ t ≤ now - 60)) then
                    entries.filter (fun t => !(0 ≤ t ∧ t ≤ now - 60))
                  else now :: entries.filter (fun t => !(0 ≤ t ∧ t ≤ now - 60)))
       else
         (none, if now ∈ entries.filter (fun t => !(0 ≤ t ∧ t ≤ now - 60)) then
                  entries.filter (fun t => !(0 ≤ t ∧ t ≤ now - 60))
                else now :: entries.filter (fun t => !(0 ≤ t ∧ t ≤ now - 60)))) := rfl

/-- Claim C7: for timestamps recorded in the past (`0 ≤ t ≤ now`), `acquire`
raises `RateLimitExceeded` iff the store is reachable (client present, both
store operations succeed) and the number of entries inside the trailing
60-second window is at least the limit; on such a rejection the current
attempt is absent from the resulting store; in every other case — no client,
a failed pipeline, or a failed `zrem` — the call returns success
(fail open). -/
theorem acquire_rejects_iff_window_full :
    ∀ (hasClient pipelineOk zremOk : Bool) (rate_limit : ℕ) (entries : List ℤ) (now : ℤ),
      (∀ t ∈ entries, 0 ≤ t ∧ t ≤ now) →
      ((((rl_acquire hasClient pipelineOk zremOk rate_limit entries now).1).isSome = true ↔
         (hasClient = true ∧ pipelineOk = true ∧ zremOk = true ∧
          rate_limit ≤ (entries.filter (fun t => now - 60 < t)).length)) ∧
       (((rl_acquire hasClient pipelineOk zremOk rate_limit entries now).1).isSome = true →
         now ∉ (rl_acquire hasClient pipelineOk zremOk rate_limit entries now).2)) := by
  intro hc pok zok limit entries now hb
  have hfilter : entries.filter (fun t => !(0 ≤ t ∧ t ≤ now - 60)) =
      entries.filter (fun t => now - 60 < t) := by
    apply List.filter_congr
    intro t ht
    have h1 := hb t ht
    by_cases h2 : now - 60 < t
    · have h3 : ¬(0 ≤ t ∧ t ≤ now - 60) := by omega
      simp [h2, h3]
    · have h3 : 0 ≤ t ∧ t ≤ now - 60 := by omega
      simp [h2, h3]
  cases hc with
  | false => simp [rl_acquire]
  | true =>
    cases pok with
    | false => simp [rl_acquire]
    | true =>
      rw [rl_acquire_connected, hfilter]
      by_cases hlim : limit ≤ (entries.filter (fun t => now - 60 < t)).length
      · rw [if_pos hlim]
        cases zok with
        | false => simp
        | true =>
            refine ⟨by simp [hlim], fun _ => ?_⟩
            simp [List.mem_filter]
      · rw [if_neg hlim]
        simp [hlim]

/-- Witness for C7 at the rejecting store: limit 1, one admission 30 s old. -/
theorem acquire_rejects_iff_window_full_witness :
    (∀ t ∈ [(30:ℤ)], 0 ≤ t ∧ t ≤ 60) ∧
    (rl_acquire true true true 1 [30] 60).1.isSome = true ∧
    (60:ℤ) ∉ (rl_acquire true true true 1 [30] 60).2 := by
  have h := acquire_rejects_iff_window_full true true true 1 [30] 60 (by decide)
  have hrej : (rl_acquire true true true 1 [30] 60).1.isSome = true :=
    h.1.mpr ⟨rfl, rfl, rfl, by decide⟩
  exact ⟨by decide, hrej, h.2 hrej⟩

/-- A `foldl min` is a lower bound of its initial value and all elements. -/
theorem foldl_min_le : ∀ (xs : List ℕ) (x : ℕ),
    xs.foldl min x ≤ x ∧ ∀ b ∈ xs, xs.foldl min x ≤ b := by
  intro xs
  induction xs with
  | nil => simp
  | cons y ys ih =>
      intro x
      constructor
      · exact le_trans (ih (min x y)).1 (min_le_left _ _)
      · intro b hb
        rcases List.mem_cons.mp hb with h | h
        · subst h
          exact le_trans (ih (min x b)).1 (min_le_right _ _)
        · exact (ih (min x y)).2 b h

/-- The pool's minimum failure count bounds every healthy provider's count. -/
theorem minFailureCount_le :
    ∀ (ps : List Provider) (m : ℕ), minFailureCount ps = some m →
      ∀ q ∈ healthyProviders ps, m ≤ q.failure_count := by
  intro ps m hm q hq
  unfold minFailureCount at hm
  have hmem : q.failure_count ∈ (healthyProviders ps).map (·.failure_count) :=
    List.mem_map.mpr ⟨q, hq, rfl⟩
  cases hcs : (healthyProviders ps).map (·.failure_count) with
  | nil => rw [hcs] at hmem; simp at hmem
  | cons c cs =>
      rw [hcs] at hm hmem
      rw [List.min?_cons'] at hm
      cases hm
      rcases List.mem_cons.mp hmem with h | h
      · rw [h]
        exact (foldl_min_le cs c).1
      · exact (foldl_min_le cs c).2 _ h

/-- Members of the tie set are healthy providers at the minimum count. -/
theorem bestIndices_mem :
    ∀ (ps : List Provider) (i : ℕ), i ∈ bestIndices ps →
      ∃ p, ps[i]? = some p ∧ p.is_healthy = true ∧
        some p.failure_count = minFailureCount ps := by
  intro ps i hi
  unfold bestIndices at hi
  have h2 := (List.mem_filter.mp hi).2
  cases hp : ps[i]? with
  | none => rw [hp] at h2; simp at h2
  | some p =>
      rw [hp] at h2
      simp only [decide_eq_true_eq] at h2
      exact ⟨p, rfl, by simpa using h2.1, h2.2⟩

/-- With at least one healthy provider the tie set is nonempty. -/
theorem bestIndices_ne_nil :
    ∀ ps : List Provider, healthyProviders ps ≠ [] → bestIndices ps ≠ [] := by
  intro ps hne
  cases hcs : healthyProviders ps with
  | nil => exact absurd hcs hne
  | cons q qs =>
      have hm : ∃ m, minFailureCount ps = some m := by
        unfold minFailureCount
        rw [hcs]
        simp only [List.map_cons, List.min?_cons']
        exact ⟨_, rfl⟩
      obtain ⟨m, hm⟩ := hm
      have hmem : m ∈ (healthyProviders ps).map (·.failure_count) :=
        List.min?_mem (fun a b => min_choice a b) hm
      obtain ⟨p, hpmem, hpc⟩ := List.mem_map.mp hmem
      have hpps : p ∈ ps := (List.mem_filter.mp hpmem).1
      obtain ⟨i, hip⟩ := List.mem_iff_getElem?.mp hpps
      have hilen : i < ps.length := by
        by_contra hge
        rw [List.getElem?_eq_none (by omega)] at hip
        cases hip
      intro hbad
      have : i ∈ bestIndices ps := by
        unfold bestIndices
        refine List.mem_filter.mpr ⟨List.mem_range.mpr hilen, ?_⟩
        rw [hip]
        simp only [decide_eq_true_eq]
        exact ⟨by simpa using (List.mem_filter.mp hpmem).2, by rw [hpc, hm]⟩
      rw [hbad] at this
      simp at this

/-- Claim C8: provider selection considers exactly the healthy providers —
with none of them it returns no provider and `_perform_evaluation` maps that
to `ServiceUnavailable`; otherwise, for every value of the random choice, it
returns a healthy provider whose `failure_count` is minimal among the healthy
ones (a member of the tie set). -/
theorem select_provider_healthy_min :
    ∀ (ps : List Provider) (choice : ℕ) (gen : GenOutcome),
      (healthyProviders ps = [] →
        get_available_provider ps choice = none ∧
        perform_evaluation ps choice gen =
          (.error (.serviceUnavailable "No providers available"), ps, false)) ∧
      (healthyProviders ps ≠ [] →
        ∃ p, get_available_provider ps choice = some p ∧
          p ∈ healthyProviders ps ∧
          ∀ q ∈ healthyProviders ps, p.failure_count ≤ q.failure_count) := by
  intro ps choice gen
  constructor
  · intro h
    constructor
    · unfold get_available_provider get_available_provider_idx
      rw [if_pos h]
      rfl
    · unfold perform_evaluation get_available_provider_idx
      rw [if_pos h]
  · intro h
    have hbne := bestIndices_ne_nil ps h
    have hlen : 0 < (bestIndices ps).length := List.length_pos.mpr hbne
    have hmod : choice % (bestIndices ps).length < (bestIndices ps).length :=
      Nat.mod_lt choice hlen
    have hidx : (bestIndices ps)[choice % (bestIndices ps).length]? =
        some ((bestIndices ps)[choice % (bestIndices ps).length]) :=
      List.getElem?_eq_getElem hmod
    have himem : (bestIndices ps)[choice % (bestIndices ps).length] ∈ bestIndices ps :=
      List.getElem?_mem hidx
    obtain ⟨p, hp, hph, hpc⟩ :=
      bestIndices_mem ps ((bestIndices ps)[choice % (bestIndices ps).length]) himem
    refine ⟨p, ?_, ?_, ?_⟩
    · unfold get_available_provider get_available_provider_idx
      rw [if_neg h, hidx]
      simpa using hp
    · exact List.mem_filter.mpr ⟨List.getElem?_mem hp, hph⟩
    · intro q hq
      exact minFailureCount_le ps p.failure_count hpc.symm q hq

/-- Witness for C8 on an all-unhealthy pool and on a three-provider pool
whose healthy minimum is provider "c". -/
theorem select_provider_healthy_min_witness :
    (healthyProviders [(⟨"a", false, 0, 3⟩ : Provider)] = [] ∧
     get_available_provider [(⟨"a", false, 0, 3⟩ : Provider)] 0 = none) ∧
    (healthyProviders
        [(⟨"a", false, 0, 3⟩ : Provider), ⟨"b", true, 2, 3⟩, ⟨"c", true, 1, 3⟩] ≠ [] ∧
     ∃ p, get_available_provider
            [(⟨"a", false, 0, 3⟩ : Provider), ⟨"b", true, 2, 3⟩, ⟨"c", true, 1, 3⟩] 0 =
          some p ∧
       p ∈ healthyProviders
            [(⟨"a", false, 0, 3⟩ : Provider), ⟨"b", true, 2, 3⟩, ⟨"c", true, 1, 3⟩] ∧
       ∀ q ∈ healthyProviders
            [(⟨"a", false, 0, 3⟩ : Provider), ⟨"b", true, 2, 3⟩, ⟨"c", true, 1, 3⟩],
         p.failure_count ≤ q.failure_count) := by
  constructor
  · exact ⟨rfl,
      ((select_provider_healthy_min [⟨"a", false, 0, 3⟩] 0 .timeout).1 rfl).1⟩
  · exact ⟨by decide,
      (select_provider_healthy_min
        [⟨"a", false, 0, 3⟩, ⟨"b", true, 2, 3⟩, ⟨"c", true, 1, 3⟩] 0 .timeout).2
        (by decide)⟩

/-- A successful forward scan lands past its offset on the sought char. -/
theorem findIdxAux_spec : ∀ (c : Char) (l : List Char) (k i : ℕ),
    findIdxAux c l k = some i → k ≤ i ∧ l[i - k]? = some c := by
  intro c l
  induction l with
  | nil =>
      intro k i h
      cases h
  | cons x xs ih =>
      intro k i h
      unfold findIdxAux at h
      split_ifs at h with hx
      · cases h
        refine ⟨le_refl _, ?_⟩
        simp [hx]
      · obtain ⟨h1, h2⟩ := ih (k + 1) i h
        refine ⟨by omega, ?_⟩
        have hik : i - k = (i - (k + 1)) + 1 := by omega
        rw [hik]
        simpa using h2

/-- A successful backward scan lands past its offset on the sought char. -/
theorem rfindAux_spec : ∀ (c : Char) (l : List Char) (k j : ℕ),
    rfindAux c l k = some j → k ≤ j ∧ l[j - k]? = some c := by
  intro c l
  induction l with
  | nil =>
      intro k j h
      cases h
  | cons x xs ih =>
      intro k j h
      unfold rfindAux at h
      cases hr : rfindAux c xs (k + 1) with
      | some j2 =>
          rw [hr] at h
          have hj : j2 = j := Option.some.inj h
          subst hj
          obtain ⟨h1, h2⟩ := ih (k + 1) j2 hr
          refine ⟨by omega, ?_⟩
          have hik : j2 - k = (j2 - (k + 1)) + 1 := by omega
          rw [hik]
          simpa using h2
      | none =>
          rw [hr] at h
          split_ifs at h with hx
          cases h
          refine ⟨le_refl _, ?_⟩
          simp [hx]

/-- Claim C9: `_parse_evaluation_response` agrees with the spec's wording on
every raw text (fallback when there is no opening brace or no closing brace
after the first one; otherwise the first-brace-to-last-brace substring is
JSON-parsed, with the trimmed raw text substituted for an absent explanation
and the same fallback on parse failure), the result's `provider` is always
the producing provider's identifier, and the spec's worked example parses to
explanation "Good", confidence 0.9, criteria_scores {relevance: 0.95}. -/
theorem parse_response_matches_spec :
    (∀ (response provider_name : String),
        parse_evaluation_response response provider_name =
          parse_evaluation_response_spec response provider_name) ∧
    (∀ (response provider_name : String),
        (parse_evaluation_response response provider_name).provider =
          some provider_name) ∧
    parse_evaluation_response
        "Great answer. \x7b\"explanation\":\"Good\",\"confidence\":0.9,\"criteria_scores\":\x7b\"relevance\":0.95\x7d\x7d"
        "prov" =
      { explanation := .str "Good",
        confidence := some (.num (9 / 10)),
        provider := some "prov",
        criteria_scores := some (.obj [("relevance", .num (19 / 20))]) } := by
  have hequiv : ∀ (response provider_name : String),
      parse_evaluation_response response provider_name =
        parse_evaluation_response_spec response provider_name := by
    intro response prov
    unfold parse_evaluation_response parse_evaluation_response_spec py_find py_rfind
    cases hf : findIdxAux '{' response.data 0 with
    | none =>
        dsimp only
        rw [if_pos (Or.inl rfl)]
    | some i =>
        cases hr : rfindAux '}' response.data 0 with
        | none =>
            dsimp only
            rw [if_pos (Or.inr (by decide))]
        | some j =>
            have hfc := (findIdxAux_spec '{' response.data 0 i hf).2
            have hrc := (rfindAux_spec '}' response.data 0 j hr).2
            simp only [Nat.sub_zero] at hfc hrc
            dsimp only
            rw [if_neg (by omega)]
            have hii : ((i : ℤ)).toNat = i := by omega
            have hjj : (((j : ℤ)) + 1).toNat = j + 1 := by omega
            by_cases hji : j ≤ i
            · have hne : j ≠ i := by
                intro he
                rw [he, hfc] at hrc
                simp at hrc
              rw [if_pos hji]
              unfold pySlice
              rw [hii, hjj]
              have hz : j + 1 - i = 0 := by omega
              rw [hz, List.take_zero]
              rfl
            · rw [if_neg hji]
              unfold pySlice
              rw [hii, hjj]
  refine ⟨hequiv, ?_, ?_⟩
  · intro response prov
    rw [hequiv]
    unfold parse_evaluation_response_spec
    split
    · rfl
    · split
      · rfl
      · split_ifs
        · rfl
        · split
          · rfl
          · rfl
          · rfl
  · have h9 : (((0:ℕ):ℚ) + ((9:ℕ):ℚ) / (10:ℚ)^(1:ℕ)) = 9 / 10 := by norm_num
    have h95 : (((0:ℕ):ℚ) + ((95:ℕ):ℚ) / (10:ℚ)^(2:ℕ)) = 19 / 20 := by norm_num
    rw [← h9, ← h95]
    rfl

end HoneyHive
